import Mathlib

/-!
# Verification of the wvdsh CLI build-upload pipeline

Shallow embedding of the wvdsh CLI (Rust) and proofs about the claims of its
specification.  The embedding covers:

* a model of `serde_json` (parser, the string escaper used by
  `serde_json::to_string`, and the derived deserializers for the small record
  shapes the CLI declares) — used by the credential store (`src/auth.rs`) and
  the API error-envelope unwrapping (`src/api_client.rs`, `src/builds.rs`);
* the project-config loader and engine-section dispatch (`src/config.rs`);
* the version-string validation of `src/config_cmd.rs` / `src/version_cmd.rs`;
* the upload-manifest builder and object-key derivation (`src/uploader.rs`);
* the staging/cleanup bookkeeping (`src/file_staging.rs`) and the build-push
  orchestrator (`src/builds.rs`), with filesystem and network outcomes made
  explicit inputs;
* the shared progress byte-counter of the parallel uploader (`src/uploader.rs`).

Machine integers are modelled as `Nat` with explicit `% 2^64` (the `AtomicU64`
wrap of `fetch_add`) and explicit saturation (`u64::saturating_add`) where the
source relies on them.
-/

namespace Wvdsh

/-! ## A model of serde_json

`serde_json` is an external library; the definitions below model the part the
CLI uses: parsing a document (`parse_json`), the string escaping performed by
`serde_json::to_string` (`escape_char`), and `#[derive(Deserialize)]` field
extraction for structs whose fields are strings (`str_field`): the object must
carry the field exactly once with a string value; unknown fields are ignored.
JSON numbers are kept as their lexemes — no CLI struct has a numeric field that
any claim inspects.  `\uXXXX` escapes are decoded as single scalar values
(surrogate-pair recombination is not modelled; the CLI never emits surrogate
escapes).  Insignificant whitespace is accepted as in `serde_json`. -/

/-- A parsed JSON value (objects keep their members in textual order). -/
inductive Json where
  | null
  | bool (b : Bool)
  | num (lexeme : String)
  | str (s : String)
  | arr (elems : List Json)
  | obj (members : List (String × Json))

/-- JSON insignificant whitespace (RFC 8259). -/
def is_ws (c : Char) : Bool :=
  c = ' ' || c = '\t' || c = '\n' || c = '\r'

/-- Drop leading insignificant whitespace. -/
def skip_ws : List Char → List Char
  | [] => []
  | c :: r => if is_ws c then skip_ws r else c :: r

/-- Value of one hex digit, if `c` is one. -/
def hex_val (c : Char) : Option Nat :=
  if '0' ≤ c ∧ c ≤ '9' then some (c.toNat - '0'.toNat)
  else if 'a' ≤ c ∧ c ≤ 'f' then some (c.toNat - 'a'.toNat + 10)
  else if 'A' ≤ c ∧ c ≤ 'F' then some (c.toNat - 'A'.toNat + 10)
  else none

/-- Decode a single-character escape (`\"`, `\\`, `\/`, `\b`, `\f`, `\n`, `\r`, `\t`). -/
def unescape_char (e : Char) : Option Char :=
  if e = '"' then some '"'
  else if e = '\\' then some '\\'
  else if e = '/' then some '/'
  else if e = 'b' then some (Char.ofNat 8)
  else if e = 'f' then some (Char.ofNat 12)
  else if e = 'n' then some '\n'
  else if e = 'r' then some '\r'
  else if e = 't' then some '\t'
  else none

/-- Parse the body of a JSON string after its opening quote, returning the
decoded characters and the remaining input.  Raw control characters are
rejected, as in `serde_json`. -/
def parse_string_body : List Char → Option (List Char × List Char)
  | [] => none
  | c :: rest =>
    if c = '"' then some ([], rest)
    else if c = '\\' then
      match rest with
      | [] => none
      | e :: rest2 =>
        if e = 'u' then
          match rest2 with
          | a :: b :: c2 :: d :: rest3 =>
            match hex_val a, hex_val b, hex_val c2, hex_val d with
            | some va, some vb, some vc, some vd =>
              (parse_string_body rest3).map
                (fun p => (Char.ofNat (((va * 16 + vb) * 16 + vc) * 16 + vd) :: p.1, p.2))
            | _, _, _, _ => none
          | _ => none
        else
          match unescape_char e with
          | some ch => (parse_string_body rest2).map (fun p => (ch :: p.1, p.2))
          | none => none
    else if c.toNat < 0x20 then none
    else (parse_string_body rest).map (fun p => (c :: p.1, p.2))

/-- Longest digit prefix of the input, with the remainder. -/
def take_digits : List Char → List Char × List Char
  | [] => ([], [])
  | c :: r =>
    if c.isDigit then
      let p := take_digits r
      (c :: p.1, p.2)
    else ([], c :: r)

/-- Fraction part of a JSON number (`.` followed by one or more digits), or
nothing; `none` on a bare dot. -/
def parse_frac (cs : List Char) : Option (List Char × List Char) :=
  match cs with
  | '.' :: r =>
    match take_digits r with
    | ([], _) => none
    | (ds, r2) => some ('.' :: ds, r2)
  | _ => some ([], cs)

/-- Exponent part of a JSON number, or nothing; `none` on a bare `e`. -/
def parse_exp (cs : List Char) : Option (List Char × List Char) :=
  match cs with
  | c :: r =>
    if c = 'e' ∨ c = 'E' then
      let sr : List Char × List Char :=
        match r with
        | '+' :: r2 => (['+'], r2)
        | '-' :: r2 => (['-'], r2)
        | _ => ([], r)
      match take_digits sr.2 with
      | ([], _) => none
      | (ds, r2) => some (c :: sr.1 ++ ds, r2)
    else some ([], cs)
  | [] => some ([], [])

/-- Lex a JSON number (sign, integer part without redundant leading zeros,
optional fraction and exponent), returning its lexeme and the rest. -/
def parse_number (cs : List Char) : Option (List Char × List Char) :=
  let sr : List Char × List Char :=
    match cs with
    | '-' :: r => (['-'], r)
    | _ => ([], cs)
  match sr.2 with
  | c :: r =>
    if c = '0' then
      match parse_frac r with
      | none => none
      | some (f, r2) =>
        match parse_exp r2 with
        | none => none
        | some (e, r3) => some (sr.1 ++ c :: (f ++ e), r3)
    else if c.isDigit then
      let p := take_digits r
      match parse_frac p.2 with
      | none => none
      | some (f, r2) =>
        match parse_exp r2 with
        | none => none
        | some (e, r3) => some (sr.1 ++ c :: (p.1 ++ f ++ e), r3)
    else none
  | [] => none

mutual
/-- Parse one JSON value (fuel-bounded recursion; `parse_json` supplies ample
fuel). -/
def parse_value : Nat → List Char → Option (Json × List Char)
  | 0, _ => none
  | fuel + 1, cs =>
    match skip_ws cs with
    | [] => none
    | c :: r =>
      if c = '"' then
        match parse_string_body r with
        | some (s, r2) => some (.str ⟨s⟩, r2)
        | none => none
      else if c = '{' then
        match skip_ws r with
        | [] => none
        | c2 :: r2 =>
          if c2 = '}' then some (.obj [], r2)
          else
            match parse_members fuel (c2 :: r2) with
            | some (ms, r3) => some (.obj ms, r3)
            | none => none
      else if c = '[' then
        match skip_ws r with
        | [] => none
        | c2 :: r2 =>
          if c2 = ']' then some (.arr [], r2)
          else
            match parse_elems fuel (c2 :: r2) with
            | some (es, r3) => some (.arr es, r3)
            | none => none
      else if c = 't' then
        match r with
        | 'r' :: 'u' :: 'e' :: r2 => some (.bool true, r2)
        | _ => none
      else if c = 'f' then
        match r with
        | 'a' :: 'l' :: 's' :: 'e' :: r2 => some (.bool false, r2)
        | _ => none
      else if c = 'n' then
        match r with
        | 'u' :: 'l' :: 'l' :: r2 => some (.null, r2)
        | _ => none
      else if c = '-' ∨ c.isDigit then
        match parse_number (c :: r) with
        | some (lex, r2) => some (.num ⟨lex⟩, r2)
        | none => none
      else none

/-- Parse one-or-more comma-separated array elements up to `]`. -/
def parse_elems : Nat → List Char → Option (List Json × List Char)
  | 0, _ => none
  | fuel + 1, cs =>
    match parse_value fuel cs with
    | none => none
    | some (v, r) =>
      match skip_ws r with
      | ',' :: r2 =>
        match parse_elems fuel r2 with
        | some (vs, r3) => some (v :: vs, r3)
        | none => none
      | ']' :: r2 => some ([v], r2)
      | _ => none

/-- Parse one-or-more comma-separated object members up to `}`. -/
def parse_members : Nat → List Char → Option (List (String × Json) × List Char)
  | 0, _ => none
  | fuel + 1, cs =>
    match skip_ws cs with
    | c :: r =>
      if c = '"' then
        match parse_string_body r with
        | none => none
        | some (k, r1) =>
          match skip_ws r1 with
          | ':' :: r2 =>
            match parse_value fuel r2 with
            | none => none
            | some (v, r3) =>
              match skip_ws r3 with
              | ',' :: r4 =>
                match parse_members fuel r4 with
                | some (ms, r5) => some ((⟨k⟩, v) :: ms, r5)
                | none => none
              | '}' :: r4 => some ([(⟨k⟩, v)], r4)
              | _ => none
          | _ => none
      else none
    | [] => none
end

/-- Parse a complete JSON document (`serde_json::from_str` consumes the whole
input, allowing trailing whitespace).  The fuel `2 * length + 2` over-covers
any run that consumes input. -/
def parse_json (s : String) : Option Json :=
  match parse_value (2 * s.data.length + 2) s.data with
  | some (j, r) => if skip_ws r = [] then some j else none
  | none => none

/-- Extract the string field `k` of an object, as `#[derive(Deserialize)]`
does for a declared `String` field: the value must be a JSON string, the field
must appear exactly once, unknown fields are ignored; anything else is a
deserialization error (`none`). -/
def str_field (j : Json) (k : String) : Option String :=
  match j with
  | .obj ms =>
    match ms.filter (fun m => m.1 = k) with
    | [(_, .str s)] => some s
    | _ => none
  | _ => none

/-- Lowercase hex digit (as `serde_json`'s serializer emits). -/
def hex_digit (n : Nat) : Char :=
  if n < 10 then Char.ofNat ('0'.toNat + n) else Char.ofNat ('a'.toNat + (n - 10))

/-- One character as `serde_json::to_string` escapes it inside a JSON string:
`"` and `\` get a backslash, the named control escapes are used for backspace,
tab, newline, form feed and carriage return, any other control character
becomes `\u00XX`, and everything else is emitted verbatim. -/
def escape_char (c : Char) : List Char :=
  if c = '"' then ['\\', '"']
  else if c = '\\' then ['\\', '\\']
  else if c = Char.ofNat 8 then ['\\', 'b']
  else if c = '\t' then ['\\', 't']
  else if c = '\n' then ['\\', 'n']
  else if c = Char.ofNat 12 then ['\\', 'f']
  else if c = '\r' then ['\\', 'r']
  else if c.toNat < 0x20 then
    ['\\', 'u', '0', '0', hex_digit (c.toNat / 16), hex_digit (c.toNat % 16)]
  else [c]

/-! ## Credential store (`src/auth.rs`)

`AuthManager` keeps one bearer token in `credentials.json`.  The filesystem is
modelled by the file's state: `none` when the file is missing or unreadable,
`some content` otherwise.  Permission handling (0600/0700) has no effect on
the stored bytes and is not modelled. -/

/-- The JSON text `serde_json::to_string(&Credentials { api_key })` produces:
`{"api_key":"<escaped key>"}` with no insignificant whitespace.  This is the
content `store_api_key` writes (`fs::write`). -/
def store_api_key_content (api_key : String) : String :=
  ⟨'{' :: '"' :: ('a' :: 'p' :: 'i' :: '_' :: 'k' :: 'e' :: 'y' :: []) ++
    '"' :: ':' :: '"' :: api_key.data.flatMap escape_char ++ ['"', '}']⟩

/-- `serde_json::from_str::<Credentials>`: parse the content and take the
`api_key` string field. -/
def deserialize_credentials (content : String) : Option String :=
  match parse_json content with
  | some j => str_field j "api_key"
  | none => none

/-- `AuthManager::get_api_key`: read the credentials file and deserialize,
turning every failure into `None` (each step is `.ok()?` in the source). -/
def get_api_key (file : Option String) : Option String :=
  match file with
  | none => none
  | some content => deserialize_credentials content

/-! ## API error envelopes (`src/api_client.rs`, `src/builds.rs`)

On a non-2xx response each call site turns the response body into an error
message.  The three struct shapes involved:

* `ApiErrorResponse { error: String }` — the outer envelope;
* `NestedError { message: String }` — what `ApiClient::handle_response`
  expects inside the envelope string;
* `ApiError { code: String, message: String }` — what the two call sites in
  `builds.rs` (`get_temp_credentials`, `notify_upload_complete`) expect
  inside the envelope string: both fields are required by the derive. -/

/-- `serde_json::from_str::<ApiErrorResponse>`: the `error` string field. -/
def deserialize_api_error_response (body : String) : Option String :=
  match parse_json body with
  | some j => str_field j "error"
  | none => none

/-- `serde_json::from_str::<NestedError>`: the `message` string field. -/
def deserialize_nested_error (s : String) : Option String :=
  match parse_json s with
  | some j => str_field j "message"
  | none => none

/-- `serde_json::from_str::<ApiError>`: both `code` and `message` string
fields are required. -/
def deserialize_api_error (s : String) : Option (String × String) :=
  match parse_json s with
  | some j =>
    match str_field j "code", str_field j "message" with
    | some c, some m => some (c, m)
    | _, _ => none
  | none => none

/-- The error message `ApiClient::handle_response` surfaces for a non-2xx
response with body `body` (`src/api_client.rs` lines 91–107): nested
`message` if the envelope string is itself JSON with one, else the raw
envelope string, else `"API request failed: "` plus the raw body. -/
def handle_response_error_message (body : String) : String :=
  match deserialize_api_error_response body with
  | some inner =>
    match deserialize_nested_error inner with
    | some m => m
    | none => inner
  | none => "API request failed: " ++ body

/-- The error message the `builds.rs` call sites (`get_temp_credentials`
lines 90–103 and `notify_upload_complete` lines 131–144, identical code)
surface for a non-2xx response with body `body`: the nested `message` only
when the envelope string parses as `ApiError { code, message }`; in every
other case `"API request failed: "` plus the raw body — there is no
raw-envelope-string fallback at these sites. -/
def builds_error_message (body : String) : String :=
  match deserialize_api_error_response body with
  | some inner =>
    match deserialize_api_error inner with
    | some cm => cm.2
    | none => "API request failed: " ++ body
  | none => "API request failed: " ++ body

/-! ## Project config (`src/config.rs`)

`WavedashConfig::load` reads the TOML file, warns about deprecated field
names, and deserializes.  TOML surface syntax is not re-modelled: a `RawDoc`
stands for a syntactically valid document that carries the required fields
(`org`, `game`, `environment`, `upload_dir`) and whichever of the optional
`[godot]` / `[unity]` / `[custom]` tables are present.  The only semantic
check `toml::from_str::<WavedashConfig>` performs beyond that is the custom
`deserialize_environment`; engine-section cardinality is *not* checked at
load time — only `engine_type()` checks it. -/

structure GodotSection where
  version : String
deriving DecidableEq

structure UnitySection where
  version : String
deriving DecidableEq

structure CustomSection where
  version : String
  entrypoint : String
deriving DecidableEq

/-- The cloud environment for the game build. -/
inductive Environment where
  | production
  | demo
  | sandbox
deriving DecidableEq

/-- `Environment::as_str`. -/
def Environment.as_str : Environment → String
  | .production => "production"
  | .demo => "demo"
  | .sandbox => "sandbox"

/-- The custom serde deserializer `deserialize_environment`: the three direct
values, then legacy `branch_slug` prefix mapping (`internal*` → sandbox,
`production*` → production, `demo*` → demo), else an error. -/
def deserialize_environment (s : String) : Except String Environment :=
  if s = "production" then .ok .production
  else if s = "demo" then .ok .demo
  else if s = "sandbox" then .ok .sandbox
  else if "internal".isPrefixOf s then .ok .sandbox
  else if "production".isPrefixOf s then .ok .production
  else if "demo".isPrefixOf s then .ok .demo
  else .error ("Invalid environment '" ++ s ++
    "'. Expected: production, demo, sandbox (or legacy: internal-*, production-*, demo-*)")

/-- A syntactically valid TOML project document, after alias resolution
(`org_slug` → `org`, `game_slug` → `game`, `branch_slug` → `environment`),
with the environment still in its textual form. -/
structure RawDoc where
  org : String
  game : String
  environment : String
  upload_dir : String
  godot : Option GodotSection
  unity : Option UnitySection
  custom : Option CustomSection
deriving DecidableEq

structure WavedashConfig where
  org : String
  game : String
  environment : Environment
  upload_dir : String
  godot : Option GodotSection
  unity : Option UnitySection
  custom : Option CustomSection
deriving DecidableEq

/-- `WavedashConfig::load` on a syntactically valid document: deprecation
warnings go to stderr (no effect on the result), then the serde
deserialization, whose only fallible part on a `RawDoc` is the environment
field.  No engine-section check happens here. -/
def WavedashConfig.load (doc : RawDoc) : Except String WavedashConfig :=
  match deserialize_environment doc.environment with
  | .error e => .error ("Failed to parse config file: " ++ e)
  | .ok env =>
    .ok { org := doc.org, game := doc.game, environment := env,
          upload_dir := doc.upload_dir,
          godot := doc.godot, unity := doc.unity, custom := doc.custom }

inductive EngineKind where
  | godot
  | unity
  | custom
deriving DecidableEq

/-- `WavedashConfig::engine_type`: exactly one engine section must be
present, otherwise a validation error. -/
def WavedashConfig.engine_type (c : WavedashConfig) : Except String EngineKind :=
  match c.godot.isSome, c.unity.isSome, c.custom.isSome with
  | true, false, false => .ok .godot
  | false, true, false => .ok .unity
  | false, false, true => .ok .custom
  | _, _, _ =>
    .error "Config must have exactly one of [godot], [unity], or [custom] sections"

/-- `WavedashConfig::entrypoint`: the custom section's entrypoint, if any. -/
def WavedashConfig.entrypoint (c : WavedashConfig) : Option String :=
  c.custom.map CustomSection.entrypoint

/-! ## Build-version validation (`src/config_cmd.rs`, `src/version_cmd.rs`)

`handle_config_set` accepts a `version` value when `value.split('.')` has
exactly three parts and every part parses as a Rust `u32`;
`handle_version_bump` applies the same two checks (parse first, then the
length) to the current version.  Rust's `str::split('.')` keeps empty parts;
`u32::from_str` accepts an optional leading `+`, requires at least one ASCII
digit, and rejects values of `2^32` or more. -/

/-- Rust's `str::split('.')` on a character list: the (possibly empty) parts
between the dots; the empty string yields one empty part. -/
def split_on_dot : List Char → List (List Char)
  | [] => [[]]
  | c :: rest =>
    match split_on_dot rest with
    | [] => [[]]
    | h :: t => if c = '.' then [] :: h :: t else (c :: h) :: t

/-- Rejoin split parts with dots (the left inverse of `split_on_dot`). -/
def join_dot : List (List Char) → List Char
  | [] => []
  | [x] => x
  | x :: xs => x ++ '.' :: join_dot xs

/-- Numeric value of a digit string. -/
def digits_val (ds : List Char) : Nat :=
  ds.foldl (fun acc c => acc * 10 + (c.toNat - '0'.toNat)) 0

/-- Strip one optional leading `+` sign. -/
def strip_plus : List Char → List Char
  | c :: r => if c = '+' then r else c :: r
  | [] => []

/-- Rust's `u32::from_str`: an optional leading `+`, one or more ASCII
digits, value below `2^32` (checked arithmetic overflows to `Err`). -/
def rust_parse_u32 (l : List Char) : Option Nat :=
  let ds := strip_plus l
  if ds ≠ [] ∧ ds.all Char.isDigit then
    if digits_val ds < 2 ^ 32 then some (digits_val ds) else none
  else none

/-- The `version` validation of `handle_config_set`
(`src/config_cmd.rs` lines 24–29): exactly three dot-separated parts, each a
valid `u32`. -/
def config_set_version_valid (s : String) : Bool :=
  let parts := split_on_dot s.data
  parts.length == 3 && parts.all (fun p => (rust_parse_u32 p).isSome)

/-- Collect `parse::<u32>` over the parts, failing on the first error
(`collect::<Result<Vec<_>>>` in `handle_version_bump`). -/
def collect_u32 : List (List Char) → Option (List Nat)
  | [] => some []
  | p :: ps =>
    match rust_parse_u32 p, collect_u32 ps with
    | some n, some ns => some (n :: ns)
    | _, _ => none

/-- The current-version validation of `handle_version_bump`
(`src/version_cmd.rs` lines 17–30): all parts parse as `u32` and there are
exactly three of them. -/
def version_bump_valid (s : String) : Bool :=
  match collect_u32 (split_on_dot s.data) with
  | some ns => ns.length == 3
  | none => false

/-- Executable matcher for the regex `^\d+\.\d+\.\d+$` of the claim: one or
more digits, a dot, one or more digits, a dot, one or more digits, end of
input (greedy digit runs are exact here since a digit run is always followed
by a non-digit or the end). -/
def version_regex_match (s : String) : Bool :=
  match take_digits s.data with
  | ([], _) => false
  | (_ :: _, rest1) =>
    match rest1 with
    | '.' :: r1 =>
      match take_digits r1 with
      | ([], _) => false
      | (_ :: _, rest2) =>
        match rest2 with
        | '.' :: r2 =>
          match take_digits r2 with
          | (ds, []) => !ds.isEmpty
          | _ => false
        | _ => false
    | _ => false

/-! ## Upload manifest (`src/uploader.rs`)

`build_manifest` drives a `WalkDir` traversal (`follow_links(false)`) of the
canonicalized source directory.  The traversal itself is the `walkdir` crate;
it is modelled by its output: a list of walk entries, each carrying its path
relative to the source root (as components), its file type, and its size from
the metadata.  Symbolic links are reported with the symlink file type (not
followed), so the `is_file` filter skips them along with directories.  Walk
and metadata errors abort `build_manifest`; error-free walks are modelled. -/

inductive FileType where
  | file
  | dir
  | symlink
deriving DecidableEq

structure WalkEntry where
  /-- Path components relative to the canonicalized source root
  (`path.strip_prefix(source_dir)`); `[]` is the root itself. -/
  rel_path : List String
  file_type : FileType
  /-- `metadata.len()` for files. -/
  size : Nat
deriving DecidableEq

/-- `u64::saturating_add` on the model integers. -/
def sat_add_u64 (a b : Nat) : Nat :=
  min (a + b) (2 ^ 64 - 1)

/-- Drop every trailing `/` (Rust's `trim_end_matches('/')`). -/
def trim_end_slashes (l : List Char) : List Char :=
  (l.reverse.dropWhile (fun c => c = '/')).reverse

/-- Drop every leading `/` (Rust's `trim_start_matches('/')`). -/
def trim_start_slashes (l : List Char) : List Char :=
  l.dropWhile (fun c => c = '/')

/-- `Vec::join("/")` over path components, at the character level. -/
def join_slash : List (List Char) → List Char
  | [] => []
  | [x] => x
  | x :: xs => x ++ '/' :: join_slash xs

/-- `build_object_key` (`src/uploader.rs` lines 165–181): the relative path's
components joined with `/`; an empty caller prefix yields that key verbatim,
otherwise the prefix with its trailing slashes trimmed, a `/`, and the
relative key with its leading slashes trimmed. -/
def build_object_key (pfx : String) (rel : List String) : String :=
  let relative_key := join_slash (rel.map String.data)
  if pfx.data = [] then ⟨relative_key⟩
  else ⟨trim_end_slashes pfx.data ++ '/' :: trim_start_slashes relative_key⟩

structure ManifestEntry where
  /-- Path components relative to the source root (the source stores the
  absolute local path, i.e. the source root joined with these). -/
  rel_path : List String
  key : String
  size : Nat
deriving DecidableEq

/-- `build_manifest` (`src/uploader.rs` lines 132–163) over the walk output:
keep regular files in walk order, derive each object key, and accumulate the
total with `u64::saturating_add`. -/
def build_manifest (walk : List WalkEntry) (pfx : String) : List ManifestEntry × Nat :=
  match walk with
  | [] => ([], 0)
  | e :: rest =>
    let p := build_manifest rest pfx
    if e.file_type = .file then
      (⟨e.rel_path, build_object_key pfx e.rel_path, e.size⟩ :: p.1,
        sat_add_u64 e.size p.2)
    else p

/-! ## Parallel uploader (`src/uploader.rs`)

`upload_directory` builds the manifest, bails out on an empty one, and
otherwise drives one task per entry through `buffer_unordered(concurrency)`
with `try_collect`: any single task error fails the whole operation.  Which
transfers fail is an input (`fails`, keyed by object key). -/

/-- The task list handed to `stream::iter` (line 102): one upload per
manifest entry, in manifest order.  When the manifest is empty the function
bails before constructing the stream, so no task exists and nothing is
written; every object write of a run is one of these tasks. -/
def upload_tasks (walk : List WalkEntry) (pfx : String) : List String :=
  let m := (build_manifest walk pfx).1
  if m.isEmpty then [] else m.map ManifestEntry.key

/-- The overall result of `upload_directory` (lines 70–129): an
empty-manifest error, or the first transfer failure propagated by
`try_collect`, or success. -/
def upload_directory_result (walk : List WalkEntry) (pfx : String)
    (source_dir : String) (fails : String → Bool) : Except String Unit :=
  let m := (build_manifest walk pfx).1
  if m.isEmpty then .error ("No files found in " ++ source_dir)
  else
    match m.find? (fun e => fails e.key) with
    | some e => .error ("Failed to write " ++ e.key)
    | none => .ok ()

/-! ## Progress aggregation (`src/uploader.rs` lines 96–121)

The shared byte counter is an `AtomicU64` starting at 0.  Each upload task,
after its own transfer completes, performs one `fetch_add(entry.size)`
(wrapping, as `AtomicU64` arithmetic does) and then writes the progress
position `min(counter_after_own_increment, total_bytes)`.  A schedule of a
parallel run is the order in which the tasks' increments hit the counter; the
value each task writes is determined by that order, whatever order the
`set_position` calls themselves land in. -/

/-- Fold the completion schedule: returns the final counter and, in schedule
order, the positions written (`min(new_total, total_bytes)` for each task). -/
def run_completions (total_bytes : Nat) : List ManifestEntry → Nat → Nat × List Nat
  | [], counter => (counter, [])
  | e :: rest, counter =>
    let new_total := (counter + e.size) % 2 ^ 64
    let p := run_completions total_bytes rest new_total
    (p.1, min new_total total_bytes :: p.2)

/-! ## File staging (`src/file_staging.rs`)

`FileStaging::prepare` copies `wavedash.toml` into the upload directory
unless the config file already *is* the file at that destination
(canonicalized-path comparison), and likewise the custom-engine entrypoint;
it records exactly what it copied.  `cleanup` removes the recorded files.
`FileStaging` has no `Drop` implementation: `cleanup` runs only where it is
called explicitly.  The upload directory is modelled by the set of file
names it contains; a copy (preceded by the defensive `remove_file`) makes
the name present, `remove_file` makes it absent. -/

structure StagingInput where
  /-- Destination name of the config copy (`"wavedash.toml"`). -/
  cfg_name : String
  /-- Whether `config_path` canonicalizes to the destination itself (the
  config file already lives in the upload directory). -/
  cfg_same : Bool
  /-- For a custom engine: the entrypoint's destination name and whether the
  source entrypoint canonicalizes to the destination itself. -/
  entry_point : Option (String × Bool)
deriving DecidableEq

structure FileStaging where
  config_dest : Option String
  entrypoint_dest : Option String
deriving DecidableEq

/-- `FileStaging::prepare` on a run where the copies succeed: returns the
tracker and the upload directory's new name set. -/
def FileStaging.prepare (inp : StagingInput) (fs : Finset String) :
    FileStaging × Finset String :=
  let cfg : Option String × Finset String :=
    if inp.cfg_same then (none, fs) else (some inp.cfg_name, insert inp.cfg_name fs)
  let ep : Option String × Finset String :=
    match inp.entry_point with
    | some (n, same) => if same then (none, cfg.2) else (some n, insert n cfg.2)
    | none => (none, cfg.2)
  (⟨cfg.1, ep.1⟩, ep.2)

/-- `FileStaging::cleanup`: remove the recorded copies. -/
def FileStaging.cleanup (st : FileStaging) (fs : Finset String) : Finset String :=
  let fs1 := match st.config_dest with
    | some n => fs.erase n
    | none => fs
  match st.entrypoint_dest with
  | some n => fs1.erase n
  | none => fs1

/-! ## Build push orchestrator (`src/builds.rs` `handle_build_push`)

The sequence of lines 149–218 with every filesystem / network outcome an
explicit input.  Steps: load config, read the stored token, check the upload
directory, resolve the engine type, fetch temporary credentials, stage
(modelled for runs where the copies succeed), upload, **then** clean up, then
notify.  Every `?` is an early return: in particular an upload error returns
*before* the `staging.cleanup()` call on line 205, and the
completion-notification call on lines 208–215 happens only after a successful
upload (and after cleanup). -/

structure PushEnv where
  /-- Outcome of `WavedashConfig::load`. -/
  config_load : Except String WavedashConfig
  /-- Content of `credentials.json` (`none`: missing or unreadable). -/
  creds_file : Option String
  /-- The display form of the resolved upload directory. -/
  upload_dir_str : String
  /-- `upload_dir.exists()`. -/
  dir_exists : Bool
  /-- `upload_dir.is_dir()`. -/
  dir_is_dir : Bool
  /-- Outcome of the `create-temp-r2-creds` API call; `ok` carries the
  server-chosen object-key prefix `r2_key_prefix`. -/
  creds_result : Except String String
  /-- The staging step's inputs (destination names, already-in-place flags). -/
  staging : StagingInput
  /-- The walk of the upload directory at manifest-build time. -/
  walk : List WalkEntry
  /-- Which object-key transfers fail. -/
  fails : String → Bool
  /-- Outcome of the `upload-completed` API call. -/
  notify_result : Except String Unit

structure PushOutcome where
  result : Except String Unit
  /-- The upload directory's file-name set when the push returns. -/
  files : Finset String
  /-- Whether the `upload-completed` API call was issued. -/
  notify_called : Bool
  /-- The upload task list (empty when no stream was constructed). -/
  tasks : List String

/-- `handle_build_push`, given the environment and the upload directory's
initial file-name set. -/
def handle_build_push (env : PushEnv) (fs0 : Finset String) : PushOutcome :=
  match env.config_load with
  | .error e => ⟨.error e, fs0, false, []⟩
  | .ok cfg =>
  match get_api_key env.creds_file with
  | none => ⟨.error "Not authenticated. Run 'wvdsh auth login' first.", fs0, false, []⟩
  | some _ =>
  if ¬ env.dir_exists then
    ⟨.error ("Source directory does not exist: " ++ env.upload_dir_str), fs0, false, []⟩
  else if ¬ env.dir_is_dir then
    ⟨.error ("Source must be a directory: " ++ env.upload_dir_str), fs0, false, []⟩
  else
  match cfg.engine_type with
  | .error e => ⟨.error e, fs0, false, []⟩
  | .ok _ =>
  match env.creds_result with
  | .error e => ⟨.error e, fs0, false, []⟩
  | .ok r2_key_prefix =>
  let staged := FileStaging.prepare env.staging fs0
  match upload_directory_result env.walk r2_key_prefix env.upload_dir_str env.fails with
  | .error e =>
    ⟨.error e, staged.2, false, upload_tasks env.walk r2_key_prefix⟩
  | .ok _ =>
    let fs2 := staged.1.cleanup staged.2
    ⟨env.notify_result, fs2, true, upload_tasks env.walk r2_key_prefix⟩

/-- The regular-file entries of a walk, in walk order. -/
def file_entries (walk : List WalkEntry) : List WalkEntry :=
  walk.filter (fun e => decide (e.file_type = FileType.file))

/-- A loaded config with exactly one engine section, for concrete runs. -/
def cfg_godot : WavedashConfig :=
  ⟨"org", "game", .production, "build", some ⟨"4.2"⟩, none, none⟩

/-- A valid document with exactly one engine section. -/
def doc_one_engine : RawDoc :=
  ⟨"org", "game", "production", "build", some ⟨"4.2"⟩, none, none⟩

/-- A valid document with no engine section at all. -/
def doc_no_engine : RawDoc :=
  ⟨"org", "game", "production", "build", none, none, none⟩

/-- A walk with two regular files, for concrete uploader runs. -/
def walk_two : List WalkEntry :=
  [⟨[], .dir, 0⟩, ⟨["a.pck"], .file, 5⟩, ⟨["bin", "b.wasm"], .file, 7⟩]

/-- A push environment in which every step up to the upload succeeds and
every file transfer fails. -/
def env_all_fail : PushEnv where
  config_load := .ok cfg_godot
  creds_file := some "\x7b\"api_key\":\"tok\"\x7d"
  upload_dir_str := "build"
  dir_exists := true
  dir_is_dir := true
  creds_result := .ok "games/g/1"
  staging := ⟨"wavedash.toml", false, none⟩
  walk := [⟨[], .dir, 0⟩, ⟨["game.exe"], .file, 4⟩]
  fails := fun _ => true
  notify_result := .ok ()

/-- A push environment identical to `env_all_fail` except that no transfer
fails. -/
def env_all_ok : PushEnv where
  config_load := .ok cfg_godot
  creds_file := some "\x7b\"api_key\":\"tok\"\x7d"
  upload_dir_str := "build"
  dir_exists := true
  dir_is_dir := true
  creds_result := .ok "games/g/1"
  staging := ⟨"wavedash.toml", false, none⟩
  walk := [⟨[], .dir, 0⟩, ⟨["game.exe"], .file, 4⟩]
  fails := fun _ => false
  notify_result := .ok ()

/-- A push environment whose upload directory walk yields no regular file. -/
def env_empty_dir : PushEnv where
  config_load := .ok cfg_godot
  creds_file := some "\x7b\"api_key\":\"tok\"\x7d"
  upload_dir_str := "build"
  dir_exists := true
  dir_is_dir := true
  creds_result := .ok "games/g/1"
  staging := ⟨"wavedash.toml", false, none⟩
  walk := [⟨[], .dir, 0⟩, ⟨["assets"], .dir, 0⟩, ⟨["link"], .symlink, 0⟩]
  fails := fun _ => false
  notify_result := .ok ()

/-- A push environment whose credentials file holds malformed content (the
`api_key` field is not a string). -/
def env_bad_creds : PushEnv where
  config_load := .ok cfg_godot
  creds_file := some "\x7b\"api_key\": 42\x7d"
  upload_dir_str := "build"
  dir_exists := true
  dir_is_dir := true
  creds_result := .ok "games/g/1"
  staging := ⟨"wavedash.toml", false, none⟩
  walk := [⟨[], .dir, 0⟩, ⟨["game.exe"], .file, 4⟩]
  fails := fun _ => false
  notify_result := .ok ()

/-- A push environment whose credentials file is missing. -/
def env_no_creds : PushEnv where
  config_load := .ok cfg_godot
  creds_file := none
  upload_dir_str := "build"
  dir_exists := true
  dir_is_dir := true
  creds_result := .ok "games/g/1"
  staging := ⟨"wavedash.toml", false, none⟩
  walk := [⟨[], .dir, 0⟩, ⟨["game.exe"], .file, 4⟩]
  fails := fun _ => false
  notify_result := .ok ()

/-! ## Shared lemmas -/

/-- `build_manifest` keeps exactly the regular files, in walk order, with the
derived key and the metadata size. -/
theorem build_manifest_entries (walk : List WalkEntry) (pfx : String) :
    (build_manifest walk pfx).1 =
      (file_entries walk).map
        (fun e => ⟨e.rel_path, build_object_key pfx e.rel_path, e.size⟩) := by
  induction walk with
  | nil => rfl
  | cons e rest ih =>
    by_cases h : e.file_type = FileType.file
    · simp [build_manifest, file_entries, List.filter_cons, h, ih]
    · simp [build_manifest, file_entries, List.filter_cons, h]
      simpa [file_entries] using ih

/-- A failing transfer among the manifest entries makes `upload_directory`
fail. -/
theorem upload_directory_result_error (walk : List WalkEntry) (pfx sd : String)
    (fails : String → Bool)
    (h : ∃ e ∈ (build_manifest walk pfx).1, fails e.key = true) :
    ∃ msg, upload_directory_result walk pfx sd fails = .error msg := by
  unfold upload_directory_result
  by_cases hm : (build_manifest walk pfx).1.isEmpty
  · exact ⟨"No files found in " ++ sd, by simp [hm]⟩
  · have hfind : ((build_manifest walk pfx).1.find? (fun e => fails e.key)).isSome := by
      rw [List.find?_isSome]
      obtain ⟨e, he, hfe⟩ := h
      exact ⟨e, he, hfe⟩
    obtain ⟨e, hfe⟩ := Option.isSome_iff_exists.mp hfind
    exact ⟨"Failed to write " ++ e.key, by simp [hm, hfe]⟩

/-! ## C5 — upload failure aborts the push, no completion notification -/

/-- C5: in a push that reaches the upload step, if any single file transfer
fails then the overall push result is an error and the `upload-completed`
notification is never issued. -/
theorem C5_upload_failure_aborts_push (env : PushEnv) (fs0 : Finset String)
    (cfg : WavedashConfig) (pfx : String)
    (h1 : env.config_load = .ok cfg)
    (h2 : (get_api_key env.creds_file).isSome = true)
    (h3 : env.dir_exists = true) (h4 : env.dir_is_dir = true)
    (h5 : ∃ k, cfg.engine_type = .ok k)
    (h6 : env.creds_result = .ok pfx)
    (h7 : ∃ e ∈ (build_manifest env.walk pfx).1, env.fails e.key = true) :
    (∃ msg, (handle_build_push env fs0).result = .error msg) ∧
      (handle_build_push env fs0).notify_called = false := by
  obtain ⟨k, hk⟩ := Option.isSome_iff_exists.mp h2
  obtain ⟨ek, hek⟩ := h5
  obtain ⟨msg, hmsg⟩ :=
    upload_directory_result_error env.walk pfx env.upload_dir_str env.fails h7
  simp only [handle_build_push, h1, hk, h3, h4, hek, h6, hmsg]
  exact ⟨⟨msg, by simp⟩, by simp⟩

/-- Witness for C5 at the concrete environment `env_all_fail`. -/
theorem C5_witness :
    (env_all_fail.config_load = .ok cfg_godot) ∧
    ((get_api_key env_all_fail.creds_file).isSome = true) ∧
    (env_all_fail.dir_exists = true) ∧ (env_all_fail.dir_is_dir = true) ∧
    (∃ k, cfg_godot.engine_type = .ok k) ∧
    (env_all_fail.creds_result = .ok "games/g/1") ∧
    (∃ e ∈ (build_manifest env_all_fail.walk "games/g/1").1,
      env_all_fail.fails e.key = true) ∧
    ((∃ msg, (handle_build_push env_all_fail ∅).result = .error msg) ∧
      (handle_build_push env_all_fail ∅).notify_called = false) :=
  ⟨rfl, by decide, rfl, rfl, ⟨.godot, rfl⟩, rfl, by decide,
    C5_upload_failure_aborts_push env_all_fail ∅ cfg_godot "games/g/1"
      rfl (by decide) rfl rfl ⟨.godot, rfl⟩ rfl (by decide)⟩

/-! ## C7 — zero-file walks fail with the empty-manifest error -/

/-- C7: in a push that reaches the upload step, if the recursive walk of the
upload directory yields no regular file, the upload fails with the
empty-manifest error (it does not complete as a zero-file success), no upload
task exists — so no object is written — and the completion notification is
never issued. -/
theorem C7_empty_manifest_fails (env : PushEnv) (fs0 : Finset String)
    (cfg : WavedashConfig) (pfx : String)
    (h1 : env.config_load = .ok cfg)
    (h2 : (get_api_key env.creds_file).isSome = true)
    (h3 : env.dir_exists = true) (h4 : env.dir_is_dir = true)
    (h5 : ∃ k, cfg.engine_type = .ok k)
    (h6 : env.creds_result = .ok pfx)
    (h7 : file_entries env.walk = []) :
    (handle_build_push env fs0).result =
        .error ("No files found in " ++ env.upload_dir_str) ∧
      (handle_build_push env fs0).notify_called = false ∧
      (handle_build_push env fs0).tasks = [] := by
  obtain ⟨k, hk⟩ := Option.isSome_iff_exists.mp h2
  obtain ⟨ek, hek⟩ := h5
  have hempty : (build_manifest env.walk pfx).1 = [] := by
    rw [build_manifest_entries, h7]; rfl
  have hup : upload_directory_result env.walk pfx env.upload_dir_str env.fails =
      .error ("No files found in " ++ env.upload_dir_str) := by
    simp [upload_directory_result, hempty]
  have htasks : upload_tasks env.walk pfx = [] := by
    simp [upload_tasks, hempty]
  simp only [handle_build_push, h1, hk, h3, h4, hek, h6, hup, htasks]
  exact ⟨by simp, by simp, by simp⟩

/-- Witness for C7 at the concrete environment `env_empty_dir`. -/
theorem C7_witness :
    (env_empty_dir.config_load = .ok cfg_godot) ∧
    ((get_api_key env_empty_dir.creds_file).isSome = true) ∧
    (env_empty_dir.dir_exists = true) ∧ (env_empty_dir.dir_is_dir = true) ∧
    (∃ k, cfg_godot.engine_type = .ok k) ∧
    (env_empty_dir.creds_result = .ok "games/g/1") ∧
    (file_entries env_empty_dir.walk = []) ∧
    ((handle_build_push env_empty_dir ∅).result =
        .error ("No files found in " ++ env_empty_dir.upload_dir_str) ∧
      (handle_build_push env_empty_dir ∅).notify_called = false ∧
      (handle_build_push env_empty_dir ∅).tasks = []) :=
  ⟨rfl, by decide, rfl, rfl, ⟨.godot, rfl⟩, rfl, by decide,
    C7_empty_manifest_fails env_empty_dir ∅ cfg_godot "games/g/1"
      rfl (by decide) rfl rfl ⟨.godot, rfl⟩ rfl (by decide)⟩

/-! ## C10 — stored-token read failures are "not logged in" -/

/-- C10: `get_api_key` has no error channel: a missing/unreadable file gives
`None` and any content gives exactly what `serde_json` deserialization gives
(`None` on malformed content), so every read failure is indistinguishable
from not being logged in; a push whose config loaded but whose token read
gave `None` fails with exactly the "Not authenticated" guidance and never
reaches the completion notification. -/
theorem C10_token_read_failure (env : PushEnv) (fs0 : Finset String)
    (cfg : WavedashConfig)
    (h1 : env.config_load = .ok cfg)
    (h2 : get_api_key env.creds_file = none) :
    (handle_build_push env fs0).result =
        .error "Not authenticated. Run 'wvdsh auth login' first." ∧
      (handle_build_push env fs0).notify_called = false ∧
      get_api_key none = none ∧
      (∀ c, get_api_key (some c) = deserialize_credentials c) := by
  refine ⟨?_, ?_, rfl, fun c => rfl⟩ <;>
    simp only [handle_build_push, h1, h2]

/-- Witness for C10 at the concrete environment `env_bad_creds`, whose
credentials file content `{"api_key": 42}` is malformed for the declared
shape. -/
theorem C10_witness :
    (env_bad_creds.config_load = .ok cfg_godot) ∧
    (get_api_key env_bad_creds.creds_file = none) ∧
    ((handle_build_push env_bad_creds ∅).result =
        .error "Not authenticated. Run 'wvdsh auth login' first." ∧
      (handle_build_push env_bad_creds ∅).notify_called = false ∧
      get_api_key none = none ∧
      (∀ c, get_api_key (some c) = deserialize_credentials c)) :=
  ⟨rfl, by decide, C10_token_read_failure env_bad_creds ∅ cfg_godot rfl (by decide)⟩

/-! ## C2 — engine-section cardinality is checked by `engine_type`, not `load` -/

/-- Characterization of `engine_type` in terms of which sections are present. -/
theorem engine_type_spec (c : WavedashConfig) :
    (c.engine_type = .ok .godot ↔
      (c.godot.isSome = true ∧ c.unity.isSome = false ∧ c.custom.isSome = false)) ∧
    (c.engine_type = .ok .unity ↔
      (c.godot.isSome = false ∧ c.unity.isSome = true ∧ c.custom.isSome = false)) ∧
    (c.engine_type = .ok .custom ↔
      (c.godot.isSome = false ∧ c.unity.isSome = false ∧ c.custom.isSome = true)) ∧
    (c.engine_type =
        .error "Config must have exactly one of [godot], [unity], or [custom] sections" ↔
      ¬((c.godot.isSome = true ∧ c.unity.isSome = false ∧ c.custom.isSome = false) ∨
        (c.godot.isSome = false ∧ c.unity.isSome = true ∧ c.custom.isSome = false) ∨
        (c.godot.isSome = false ∧ c.unity.isSome = false ∧ c.custom.isSome = true))) := by
  obtain ⟨o, g, e, u, gd, un, cu⟩ := c
  cases gd <;> cases un <;> cases cu <;>
    simp [WavedashConfig.engine_type]

/-- C2 counterexample: a valid document with *zero* engine sections loads
successfully — the claim's "loading fails with a validation error" is false;
only the later `engine_type()` call reports the violation. -/
theorem C2_counterexample :
    (WavedashConfig.load doc_no_engine).isOk = true ∧
      WavedashConfig.load doc_no_engine = .ok
        ⟨"org", "game", .production, "build", none, none, none⟩ ∧
      WavedashConfig.engine_type
          ⟨"org", "game", .production, "build", none, none, none⟩ =
        .error "Config must have exactly one of [godot], [unity], or [custom] sections" := by
  refine ⟨?_, ?_, ?_⟩ <;> rfl

/-- C2 amended: loading a syntactically valid document succeeds whenever its
environment value is accepted, *regardless* of how many engine sections it
has; it is `engine_type()` that returns the section's kind when exactly one
section is present and the validation error otherwise. -/
theorem C2_amended (doc : RawDoc)
    (h : (deserialize_environment doc.environment).isOk = true) :
    ∃ cfg, WavedashConfig.load doc = .ok cfg ∧
      cfg.godot = doc.godot ∧ cfg.unity = doc.unity ∧ cfg.custom = doc.custom ∧
      (cfg.engine_type = .ok .godot ↔
        (doc.godot.isSome = true ∧ doc.unity.isSome = false ∧ doc.custom.isSome = false)) ∧
      (cfg.engine_type = .ok .unity ↔
        (doc.godot.isSome = false ∧ doc.unity.isSome = true ∧ doc.custom.isSome = false)) ∧
      (cfg.engine_type = .ok .custom ↔
        (doc.godot.isSome = false ∧ doc.unity.isSome = false ∧ doc.custom.isSome = true)) ∧
      (cfg.engine_type =
          .error "Config must have exactly one of [godot], [unity], or [custom] sections" ↔
        ¬((doc.godot.isSome = true ∧ doc.unity.isSome = false ∧ doc.custom.isSome = false) ∨
          (doc.godot.isSome = false ∧ doc.unity.isSome = true ∧ doc.custom.isSome = false) ∨
          (doc.godot.isSome = false ∧ doc.unity.isSome = false ∧
            doc.custom.isSome = true))) := by
  cases hd : deserialize_environment doc.environment with
  | error e => rw [hd] at h; simp [Except.isOk, Except.toBool] at h
  | ok env =>
    refine ⟨⟨doc.org, doc.game, env, doc.upload_dir, doc.godot, doc.unity, doc.custom⟩,
      by simp [WavedashConfig.load, hd], rfl, rfl, rfl, ?_⟩
    exact engine_type_spec
      ⟨doc.org, doc.game, env, doc.upload_dir, doc.godot, doc.unity, doc.custom⟩

/-- Witness for C2 amended at `doc_one_engine`. -/
theorem C2_witness :
    ((deserialize_environment doc_one_engine.environment).isOk = true) ∧
      (∃ cfg, WavedashConfig.load doc_one_engine = .ok cfg ∧
        cfg.godot = doc_one_engine.godot ∧ cfg.unity = doc_one_engine.unity ∧
        cfg.custom = doc_one_engine.custom ∧
        (cfg.engine_type = .ok .godot ↔
          (doc_one_engine.godot.isSome = true ∧ doc_one_engine.unity.isSome = false ∧
            doc_one_engine.custom.isSome = false)) ∧
        (cfg.engine_type = .ok .unity ↔
          (doc_one_engine.godot.isSome = false ∧ doc_one_engine.unity.isSome = true ∧
            doc_one_engine.custom.isSome = false)) ∧
        (cfg.engine_type = .ok .custom ↔
          (doc_one_engine.godot.isSome = false ∧ doc_one_engine.unity.isSome = false ∧
            doc_one_engine.custom.isSome = true)) ∧
        (cfg.engine_type =
            .error "Config must have exactly one of [godot], [unity], or [custom] sections" ↔
          ¬((doc_one_engine.godot.isSome = true ∧ doc_one_engine.unity.isSome = false ∧
              doc_one_engine.custom.isSome = false) ∨
            (doc_one_engine.godot.isSome = false ∧ doc_one_engine.unity.isSome = true ∧
              doc_one_engine.custom.isSome = false) ∨
            (doc_one_engine.godot.isSome = false ∧ doc_one_engine.unity.isSome = false ∧
              doc_one_engine.custom.isSome = true)))) :=
  ⟨by decide, C2_amended doc_one_engine (by decide)⟩

/-! ## C8 — the shared progress byte counter -/

/-- One position is written per completed transfer. -/
theorem run_completions_length (t : Nat) (l : List ManifestEntry) (c : Nat) :
    (run_completions t l c).2.length = l.length := by
  induction l generalizing c with
  | nil => rfl
  | cons e rest ih => simp [run_completions, ih]

/-- Every written position is clamped to the total. -/
theorem run_completions_le (t : Nat) (l : List ManifestEntry) (c : Nat) :
    ∀ p ∈ (run_completions t l c).2, p ≤ t := by
  induction l generalizing c with
  | nil => simp [run_completions]
  | cons e rest ih =>
    intro p hp
    simp only [run_completions, List.mem_cons] at hp
    rcases hp with h | h
    · simp [h]
    · exact ih _ p h

/-- The counter after a schedule is the wrapped sum of the schedule's sizes. -/
theorem run_completions_final (t : Nat) (l : List ManifestEntry) (c : Nat)
    (hc : c < 2 ^ 64) :
    (run_completions t l c).1 = (c + (l.map ManifestEntry.size).sum) % 2 ^ 64 := by
  induction l generalizing c with
  | nil =>
    simp only [run_completions, List.map_nil, List.sum_nil, Nat.add_zero]
    exact (Nat.mod_eq_of_lt hc).symm
  | cons e rest ih =>
    have hlt : (c + e.size) % 2 ^ 64 < 2 ^ 64 :=
      Nat.mod_lt _ (by positivity)
    simp only [run_completions, List.map_cons, List.sum_cons]
    rw [ih _ hlt, Nat.mod_add_mod]
    ring_nf

/-- C8: for any completion order of the manifest's transfers, the shared
counter receives exactly one increment per file — ending at the wrapped sum
of their full sizes — and every progress position written
(`min(counter_after_increment, total_bytes)`) stays at or below the
manifest's `total_bytes`. -/
theorem C8_progress_counter (walk : List WalkEntry) (pfx : String)
    (schedule : List ManifestEntry)
    (h : schedule.Perm (build_manifest walk pfx).1) :
    (run_completions (build_manifest walk pfx).2 schedule 0).2.length =
        (build_manifest walk pfx).1.length ∧
      (∀ p ∈ (run_completions (build_manifest walk pfx).2 schedule 0).2,
        p ≤ (build_manifest walk pfx).2) ∧
      (run_completions (build_manifest walk pfx).2 schedule 0).1 =
        ((build_manifest walk pfx).1.map ManifestEntry.size).sum % 2 ^ 64 := by
  refine ⟨?_, run_completions_le _ _ _, ?_⟩
  · rw [run_completions_length]
    exact h.length_eq
  · rw [run_completions_final _ _ _ (by positivity), Nat.zero_add]
    congr 1
    exact (h.map ManifestEntry.size).sum_eq

/-- Witness for C8: the two-file manifest completed in reverse order. -/
theorem C8_witness :
    ([(⟨["bin", "b.wasm"], "games/g/1/bin/b.wasm", 7⟩ : ManifestEntry),
        ⟨["a.pck"], "games/g/1/a.pck", 5⟩].Perm
      (build_manifest walk_two "games/g/1").1) ∧
    ((run_completions (build_manifest walk_two "games/g/1").2
        [⟨["bin", "b.wasm"], "games/g/1/bin/b.wasm", 7⟩,
          ⟨["a.pck"], "games/g/1/a.pck", 5⟩] 0).2.length =
        (build_manifest walk_two "games/g/1").1.length ∧
      (∀ p ∈ (run_completions (build_manifest walk_two "games/g/1").2
          [⟨["bin", "b.wasm"], "games/g/1/bin/b.wasm", 7⟩,
            ⟨["a.pck"], "games/g/1/a.pck", 5⟩] 0).2,
        p ≤ (build_manifest walk_two "games/g/1").2) ∧
      (run_completions (build_manifest walk_two "games/g/1").2
          [⟨["bin", "b.wasm"], "games/g/1/bin/b.wasm", 7⟩,
            ⟨["a.pck"], "games/g/1/a.pck", 5⟩] 0).1 =
        ((build_manifest walk_two "games/g/1").1.map ManifestEntry.size).sum % 2 ^ 64) :=
  ⟨by decide, C8_progress_counter walk_two "games/g/1"
    [⟨["bin", "b.wasm"], "games/g/1/bin/b.wasm", 7⟩,
      ⟨["a.pck"], "games/g/1/a.pck", 5⟩] (by decide)⟩

/-! ## C1 — staging cleanup and the upload-failure exit path -/

/-- `cleanup` after `prepare` removes exactly what `prepare` copied: when the
staged names were not already present, the file set returns to its initial
value. -/
theorem prepare_cleanup (inp : StagingInput) (fs : Finset String)
    (hc : inp.cfg_name ∉ fs)
    (he : ∀ n same, inp.entry_point = some (n, same) → n ∉ fs ∧ n ≠ inp.cfg_name) :
    (FileStaging.prepare inp fs).1.cleanup (FileStaging.prepare inp fs).2 = fs := by
  obtain ⟨cfgN, cfgS, ep⟩ := inp
  rcases ep with _ | ⟨n, same⟩
  · cases cfgS
    · simp [FileStaging.prepare, FileStaging.cleanup, Finset.erase_insert hc]
    · simp [FileStaging.prepare, FileStaging.cleanup]
  · obtain ⟨hn, hne⟩ := he n same rfl
    cases cfgS <;> cases same
    · have h1 : FileStaging.prepare ⟨cfgN, false, some (n, false)⟩ fs =
          (⟨some cfgN, some n⟩, insert n (insert cfgN fs)) := by
        simp [FileStaging.prepare]
      rw [h1]
      show ((insert n (insert cfgN fs)).erase cfgN).erase n = fs
      rw [Finset.erase_insert_of_ne hne, Finset.erase_insert hc, Finset.erase_insert hn]
    · simp [FileStaging.prepare, FileStaging.cleanup, Finset.erase_insert hc]
    · simp [FileStaging.prepare, FileStaging.cleanup, Finset.erase_insert hn]
    · simp [FileStaging.prepare, FileStaging.cleanup]

/-- C1 counterexample: a push in which staging copied `wavedash.toml` into an
(initially empty) upload directory and the upload step then failed.  The
push returns the upload error *before* the `staging.cleanup()` call — and
`FileStaging` has no scoped-release (`Drop`) hook — so the copied file is
still present: the directory's file set after the push differs from its set
before staging, contradicting the claim's every-exit-path guarantee. -/
theorem C1_counterexample :
    (handle_build_push env_all_fail ∅).result.isOk = false ∧
      (handle_build_push env_all_fail ∅).files = {"wavedash.toml"} ∧
      (handle_build_push env_all_fail ∅).files ≠ (∅ : Finset String) := by
  refine ⟨by decide, by decide, ?_⟩
  intro h
  have : ("wavedash.toml" : String) ∈ (handle_build_push env_all_fail ∅).files := by
    decide
  rw [h] at this
  exact absurd this (Finset.not_mem_empty _)

/-- C1 amended: in a push that reaches the staging step (with the staged
names not already present in the upload directory), the staged copies are
removed again on the success path and on the completion-notify-failure path
(cleanup precedes the notify call), restoring the directory's file set; but
when the *upload* step fails, the push returns early, cleanup is skipped,
and the staged copies are left in the directory. -/
theorem C1_amended (env : PushEnv) (fs0 : Finset String)
    (cfg : WavedashConfig) (pfx : String)
    (h1 : env.config_load = .ok cfg)
    (h2 : (get_api_key env.creds_file).isSome = true)
    (h3 : env.dir_exists = true) (h4 : env.dir_is_dir = true)
    (h5 : ∃ k, cfg.engine_type = .ok k)
    (h6 : env.creds_result = .ok pfx)
    (h7 : env.staging.cfg_name ∉ fs0)
    (h8 : ∀ n same, env.staging.entry_point = some (n, same) →
      n ∉ fs0 ∧ n ≠ env.staging.cfg_name) :
    ((upload_directory_result env.walk pfx env.upload_dir_str env.fails).isOk = true →
      (handle_build_push env fs0).files = fs0) ∧
    ((upload_directory_result env.walk pfx env.upload_dir_str env.fails).isOk = false →
      (handle_build_push env fs0).files = (FileStaging.prepare env.staging fs0).2 ∧
        (handle_build_push env fs0).result.isOk = false ∧
        (handle_build_push env fs0).notify_called = false) := by
  obtain ⟨k, hk⟩ := Option.isSome_iff_exists.mp h2
  obtain ⟨ek, hek⟩ := h5
  cases hup : upload_directory_result env.walk pfx env.upload_dir_str env.fails with
  | ok u =>
    refine ⟨fun _ => ?_, fun hFalse => by simp [Except.isOk, Except.toBool] at hFalse⟩
    simp only [handle_build_push, h1, hk, h3, h4, hek, h6, hup]
    simpa using prepare_cleanup env.staging fs0 h7 h8
  | error msg =>
    refine ⟨fun hTrue => by simp [Except.isOk, Except.toBool] at hTrue, fun _ => ?_⟩
    simp only [handle_build_push, h1, hk, h3, h4, hek, h6, hup]
    exact ⟨by simp, by simp [Except.isOk, Except.toBool], by simp⟩

/-- Witness for C1 amended at the concrete environment `env_all_fail`
(upload-failure branch) with an initially empty upload directory. -/
theorem C1_witness :
    (env_all_fail.config_load = .ok cfg_godot) ∧
    ((get_api_key env_all_fail.creds_file).isSome = true) ∧
    (env_all_fail.dir_exists = true) ∧ (env_all_fail.dir_is_dir = true) ∧
    (∃ k, cfg_godot.engine_type = .ok k) ∧
    (env_all_fail.creds_result = .ok "games/g/1") ∧
    (env_all_fail.staging.cfg_name ∉ (∅ : Finset String)) ∧
    (((upload_directory_result env_all_fail.walk "games/g/1"
          env_all_fail.upload_dir_str env_all_fail.fails).isOk = true →
        (handle_build_push env_all_fail ∅).files = ∅) ∧
      ((upload_directory_result env_all_fail.walk "games/g/1"
          env_all_fail.upload_dir_str env_all_fail.fails).isOk = false →
        (handle_build_push env_all_fail ∅).files =
            (FileStaging.prepare env_all_fail.staging ∅).2 ∧
          (handle_build_push env_all_fail ∅).result.isOk = false ∧
          (handle_build_push env_all_fail ∅).notify_called = false)) :=
  ⟨rfl, by decide, rfl, rfl, ⟨.godot, rfl⟩, rfl, by decide,
    C1_amended env_all_fail ∅ cfg_godot "games/g/1" rfl (by decide) rfl rfl
      ⟨.godot, rfl⟩ rfl (by decide) (fun n same h => nomatch h)⟩

/-! ## C4 — version-string validation vs. the `^\d+\.\d+\.\d+$` regex -/

/-- Splitting a dot-free string yields the single part. -/
theorem split_on_dot_dotfree {l : List Char} (h : '.' ∉ l) :
    split_on_dot l = [l] := by
  induction l with
  | nil => rfl
  | cons c rest ih =>
    have hc : c ≠ '.' := fun e => h (e ▸ List.mem_cons_self c rest)
    have hr : '.' ∉ rest := fun e => h (List.mem_cons_of_mem c e)
    simp [split_on_dot, ih hr, hc]

/-- Splitting consumes a dot-free part up to the first dot. -/
theorem split_on_dot_append {a : List Char} (r : List Char) (h : '.' ∉ a) :
    split_on_dot (a ++ '.' :: r) = a :: split_on_dot r := by
  induction a with
  | nil =>
    cases hr : split_on_dot r with
    | nil => simp [split_on_dot, hr]
    | cons x xs => simp [split_on_dot, hr]
  | cons c rest ih =>
    have hc : c ≠ '.' := fun e => h (e ▸ List.mem_cons_self c rest)
    have hr : '.' ∉ rest := fun e => h (List.mem_cons_of_mem c e)
    simp [split_on_dot, ih hr, hc]

/-- `split_on_dot` never yields the empty list of parts. -/
theorem split_on_dot_ne_nil (l : List Char) : split_on_dot l ≠ [] := by
  cases l with
  | nil => simp [split_on_dot]
  | cons c rest =>
    simp only [split_on_dot]
    cases h : split_on_dot rest with
    | nil => simp
    | cons x xs =>
      by_cases hc : c = '.' <;> simp [hc]

/-- Rejoining the split parts recovers the input. -/
theorem join_dot_split (l : List Char) : join_dot (split_on_dot l) = l := by
  induction l with
  | nil => rfl
  | cons c rest ih =>
    simp only [split_on_dot]
    cases h : split_on_dot rest with
    | nil => exact absurd h (split_on_dot_ne_nil rest)
    | cons x xs =>
      rw [h] at ih
      by_cases hc : c = '.'
      · subst hc
        simpa [join_dot] using ih
      · cases xs with
        | nil => simp only [if_neg hc, join_dot]; simpa [join_dot] using ih
        | cons y ys => simp only [if_neg hc, join_dot]; simpa [join_dot] using ih

/-- Every split part is dot-free. -/
theorem split_on_dot_parts {l : List Char} :
    ∀ p ∈ split_on_dot l, '.' ∉ p := by
  induction l with
  | nil => simp [split_on_dot]
  | cons c rest ih =>
    simp only [split_on_dot]
    cases h : split_on_dot rest with
    | nil => simp
    | cons x xs =>
      rw [h] at ih
      show ∀ p ∈ (if c = '.' then [] :: x :: xs else (c :: x) :: xs), '.' ∉ p
      by_cases hc : c = '.'
      · rw [if_pos hc]
        intro p hp
        rcases List.mem_cons.mp hp with rfl | hp2
        · exact List.not_mem_nil _
        · exact ih p hp2
      · rw [if_neg hc]
        intro p hp
        rcases List.mem_cons.mp hp with rfl | hp2
        · intro hmem
          rcases List.mem_cons.mp hmem with h1 | h2
          · exact hc h1.symm
          · exact ih x (List.mem_cons_self x xs) h2
        · exact ih p (List.mem_cons_of_mem x hp2)

/-- A character other than `+` survives the sign stripping. -/
theorem mem_strip_plus {x : Char} {l : List Char} (hx : x ≠ '+') (h : x ∈ l) :
    x ∈ strip_plus l := by
  cases l with
  | nil => exact absurd h (List.not_mem_nil _)
  | cons c r =>
    by_cases hc : c = '+'
    · subst hc
      rcases List.mem_cons.mp h with rfl | h2
      · exact absurd rfl hx
      · simpa [strip_plus] using h2
    · simpa [strip_plus, hc] using h

/-- What acceptance by `u32::from_str` says about the digit run. -/
theorem rust_parse_u32_isSome {l : List Char}
    (h : (rust_parse_u32 l).isSome = true) :
    strip_plus l ≠ [] ∧ (strip_plus l).all Char.isDigit = true := by
  by_contra hcon
  rw [Decidable.not_and_iff_or_not] at hcon
  have hfalse : ¬(strip_plus l ≠ [] ∧ (strip_plus l).all Char.isDigit) := by
    intro ⟨h1, h2⟩
    rcases hcon with hl | hr
    · exact hl h1
    · exact hr h2
  simp only [rust_parse_u32, if_neg hfalse, Option.isSome_none] at h
  exact Bool.false_ne_true h

/-- A string accepted by `u32::from_str` contains no dot. -/
theorem rust_parse_u32_no_dot {p : List Char}
    (h : (rust_parse_u32 p).isSome = true) : '.' ∉ p := by
  intro hmem
  obtain ⟨hne, hdig⟩ := rust_parse_u32_isSome h
  have : ('.' : Char) ∈ strip_plus p := mem_strip_plus (by decide) hmem
  exact absurd (List.all_eq_true.mp hdig _ this) (by decide)

/-- A successful `collect` keeps the length and means every part parsed. -/
theorem collect_u32_some {ps : List (List Char)} {ns : List Nat}
    (h : collect_u32 ps = some ns) :
    ns.length = ps.length ∧ ps.all (fun p => (rust_parse_u32 p).isSome) = true := by
  induction ps generalizing ns with
  | nil =>
    simp only [collect_u32, Option.some.injEq] at h
    subst h
    simp
  | cons p rest ih =>
    simp only [collect_u32] at h
    cases hp : rust_parse_u32 p with
    | none => rw [hp] at h; exact absurd h (by simp)
    | some n =>
      rw [hp] at h
      cases hr : collect_u32 rest with
      | none => rw [hr] at h; exact absurd h (by simp)
      | some ms =>
        rw [hr] at h
        obtain ⟨hl, ha⟩ := ih hr
        simp only [Option.some.injEq] at h
        subst h
        simp [hl, ha, hp]

/-- A failed `collect` means some part failed to parse. -/
theorem collect_u32_none {ps : List (List Char)}
    (h : collect_u32 ps = none) :
    ps.all (fun p => (rust_parse_u32 p).isSome) = false := by
  induction ps with
  | nil => simp [collect_u32] at h
  | cons p rest ih =>
    simp only [collect_u32] at h
    cases hp : rust_parse_u32 p with
    | none => simp [hp]
    | some n =>
      rw [hp] at h
      cases hr : collect_u32 rest with
      | none => simp [ih hr]
      | some ms => rw [hr] at h; exact absurd h (by simp)

/-- The two validation code paths agree on any part list. -/
theorem version_valid_agree_aux (ps : List (List Char)) :
    (ps.length == 3 && ps.all (fun p => (rust_parse_u32 p).isSome)) =
      (match collect_u32 ps with
        | some ns => ns.length == 3
        | none => false) := by
  cases hcol : collect_u32 ps with
  | some ns =>
    obtain ⟨hlen, hall⟩ := collect_u32_some hcol
    rw [hall]
    simp [hlen]
  | none =>
    rw [collect_u32_none hcol]
    simp

/-- C4 counterexample: `"+1.2.3"` does not match `^\d+\.\d+\.\d+$` yet the
validation accepts it (Rust `u32` parsing tolerates a leading `+`), and
`"4294967296.0.0"` matches the regex yet is rejected (`u32` overflow) — so
acceptance is not equivalent to matching the regex. -/
theorem C4_counterexample :
    config_set_version_valid "+1.2.3" = true ∧
      version_regex_match "+1.2.3" = false ∧
      version_regex_match "4294967296.0.0" = true ∧
      config_set_version_valid "4294967296.0.0" = false := by
  refine ⟨?_, ?_, ?_, ?_⟩ <;> decide

/-- C4 amended: both validation sites accept exactly the strings of the form
`A.B.C` where each component is a Rust `u32` literal — an optional leading
`+` followed by one or more digits whose value is below `2^32`. -/
theorem C4_amended (s : String) :
    config_set_version_valid s = version_bump_valid s ∧
    (config_set_version_valid s = true ↔
      ∃ a b c, s.data = a ++ '.' :: (b ++ '.' :: c) ∧
        (rust_parse_u32 a).isSome = true ∧ (rust_parse_u32 b).isSome = true ∧
        (rust_parse_u32 c).isSome = true) := by
  constructor
  · exact version_valid_agree_aux (split_on_dot s.data)
  · constructor
    · intro hv
      unfold config_set_version_valid at hv
      rw [Bool.and_eq_true] at hv
      obtain ⟨hlen, hall⟩ := hv
      have hlen3 : (split_on_dot s.data).length = 3 := by simpa using hlen
      rcases hps : split_on_dot s.data with _ | ⟨a, _ | ⟨b, _ | ⟨c, _ | _⟩⟩⟩ <;>
        rw [hps] at hlen3 <;> simp at hlen3
      rw [hps] at hall
      have hjoin := join_dot_split s.data
      rw [hps] at hjoin
      refine ⟨a, b, c, by simpa [join_dot] using hjoin.symm, ?_, ?_, ?_⟩
      · exact List.all_eq_true.mp hall a (by simp)
      · exact List.all_eq_true.mp hall b (by simp)
      · exact List.all_eq_true.mp hall c (by simp)
    · rintro ⟨a, b, c, hdecomp, ha, hb, hc⟩
      have hsplit : split_on_dot s.data = [a, b, c] := by
        rw [hdecomp, split_on_dot_append _ (rust_parse_u32_no_dot ha),
          split_on_dot_append _ (rust_parse_u32_no_dot hb),
          split_on_dot_dotfree (rust_parse_u32_no_dot hc)]
      unfold config_set_version_valid
      rw [hsplit]
      simp [ha, hb, hc]

/-- Witness for C4 amended: instantiating at `"1.2.3"` produces the
three-component decomposition. -/
theorem C4_witness :
    ∃ a b c, ("1.2.3" : String).data = a ++ '.' :: (b ++ '.' :: c) ∧
      (rust_parse_u32 a).isSome = true ∧ (rust_parse_u32 b).isSome = true ∧
      (rust_parse_u32 c).isSome = true :=
  (C4_amended "1.2.3").2.mp (by decide)

/-! ## C6 — the manifest: one entry per regular file, keys unique -/

/-- Cancellation across the first slash: two slash-free runs followed by a
slash determine each other. -/
theorem append_slash_inj {x : List Char} : ∀ {y t1 t2 : List Char},
    '/' ∉ x → '/' ∉ y → x ++ '/' :: t1 = y ++ '/' :: t2 → x = y ∧ t1 = t2 := by
  induction x with
  | nil =>
    intro y t1 t2 _ hy h
    cases y with
    | nil => simpa using h
    | cons c ys =>
      exfalso
      simp only [List.nil_append, List.cons_append, List.cons.injEq] at h
      exact hy (by rw [← h.1]; exact List.mem_cons_self _ _)
  | cons a xs ih =>
    intro y t1 t2 hx hy h
    cases y with
    | nil =>
      exfalso
      simp only [List.cons_append, List.nil_append, List.cons.injEq] at h
      exact hx (by rw [h.1]; exact List.mem_cons_self _ _)
    | cons b ys =>
      simp only [List.cons_append, List.cons.injEq] at h
      obtain ⟨hab, hrest⟩ := h
      have hx2 : '/' ∉ xs := fun m => hx (List.mem_cons_of_mem _ m)
      have hy2 : '/' ∉ ys := fun m => hy (List.mem_cons_of_mem _ m)
      obtain ⟨hxy, ht⟩ := ih hx2 hy2 hrest
      exact ⟨by rw [hab, hxy], ht⟩

/-- `join("/")` is injective on lists of nonempty slash-free components. -/
theorem join_slash_inj : ∀ {xs ys : List (List Char)},
    (∀ p ∈ xs, p ≠ [] ∧ '/' ∉ p) → (∀ p ∈ ys, p ≠ [] ∧ '/' ∉ p) →
    join_slash xs = join_slash ys → xs = ys := by
  intro xs
  induction xs with
  | nil =>
    intro ys _ hys h
    cases ys with
    | nil => rfl
    | cons y ys2 =>
      exfalso
      obtain ⟨hyne, _⟩ := hys y (List.mem_cons_self _ _)
      cases ys2 with
      | nil => exact hyne (by simpa [join_slash] using h.symm)
      | cons z zs =>
        simp only [join_slash] at h
        exact absurd h.symm (by simp)
  | cons x xs2 ih =>
    intro ys hxs hys h
    obtain ⟨hxne, hxsl⟩ := hxs x (List.mem_cons_self _ _)
    cases ys with
    | nil =>
      exfalso
      cases xs2 with
      | nil => exact hxne (by simpa [join_slash] using h)
      | cons z zs =>
        simp only [join_slash] at h
        exact absurd h (by simp)
    | cons y ys2 =>
      obtain ⟨hyne, hysl⟩ := hys y (List.mem_cons_self _ _)
      cases xs2 with
      | nil =>
        cases ys2 with
        | nil =>
          simp only [join_slash] at h
          rw [h]
        | cons z zs =>
          exfalso
          simp only [join_slash] at h
          exact hxsl (by rw [h]; exact List.mem_append_right _ (List.mem_cons_self _ _))
      | cons w ws =>
        cases ys2 with
        | nil =>
          exfalso
          simp only [join_slash] at h
          exact hysl (by rw [← h]; exact List.mem_append_right _ (List.mem_cons_self _ _))
        | cons z zs =>
          simp only [join_slash] at h
          obtain ⟨h1, h2⟩ := append_slash_inj hxsl hysl h
          have h3 := ih (fun p hp => hxs p (List.mem_cons_of_mem _ hp))
            (fun p hp => hys p (List.mem_cons_of_mem _ hp)) h2
          rw [h1, h3]

/-- A joined relative key whose first component is nonempty and slash-free
has no leading slash to trim. -/
theorem trim_start_join {x : List Char} (xs : List (List Char))
    (hne : x ≠ []) (hx : '/' ∉ x) :
    trim_start_slashes (join_slash (x :: xs)) = join_slash (x :: xs) := by
  obtain ⟨c, t, rfl⟩ : ∃ c t, x = c :: t := by
    cases x with
    | nil => exact absurd rfl hne
    | cons c t => exact ⟨c, t, rfl⟩
  have hc : ¬(c = '/') := fun e => hx (e ▸ List.mem_cons_self c t)
  cases xs with
  | nil => simp [join_slash, trim_start_slashes, hc]
  | cons z zs => simp [join_slash, trim_start_slashes, hc]

/-- For a fixed caller prefix, `build_object_key` is injective on nonempty
relative paths with nonempty slash-free components. -/
theorem build_object_key_inj (pfx : String) {r1 r2 : List String}
    (h1 : r1 ≠ []) (h2 : r2 ≠ [])
    (hw1 : ∀ n ∈ r1, n ≠ "" ∧ '/' ∉ n.data)
    (hw2 : ∀ n ∈ r2, n ≠ "" ∧ '/' ∉ n.data)
    (heq : build_object_key pfx r1 = build_object_key pfx r2) : r1 = r2 := by
  have wf1 : ∀ p ∈ r1.map String.data, p ≠ [] ∧ '/' ∉ p := by
    intro p hp
    obtain ⟨n, hn, rfl⟩ := List.mem_map.mp hp
    obtain ⟨hne, hsl⟩ := hw1 n hn
    exact ⟨fun e => hne (String.ext e), hsl⟩
  have wf2 : ∀ p ∈ r2.map String.data, p ≠ [] ∧ '/' ∉ p := by
    intro p hp
    obtain ⟨n, hn, rfl⟩ := List.mem_map.mp hp
    obtain ⟨hne, hsl⟩ := hw2 n hn
    exact ⟨fun e => hne (String.ext e), hsl⟩
  have hjoin : join_slash (r1.map String.data) = join_slash (r2.map String.data) := by
    obtain ⟨n1, rest1, rfl⟩ : ∃ n rest, r1 = n :: rest := by
      cases r1 with
      | nil => exact absurd rfl h1
      | cons n rest => exact ⟨n, rest, rfl⟩
    obtain ⟨n2, rest2, rfl⟩ : ∃ n rest, r2 = n :: rest := by
      cases r2 with
      | nil => exact absurd rfl h2
      | cons n rest => exact ⟨n, rest, rfl⟩
    obtain ⟨w1a, w1b⟩ := wf1 n1.data (by simp)
    obtain ⟨w2a, w2b⟩ := wf2 n2.data (by simp)
    by_cases hp : pfx.data = []
    · simp only [build_object_key, if_pos hp] at heq
      exact congrArg String.data heq
    · simp only [build_object_key, if_neg hp] at heq
      have h3 : trim_end_slashes pfx.data ++
          '/' :: trim_start_slashes (join_slash ((n1 :: rest1).map String.data)) =
          trim_end_slashes pfx.data ++
          '/' :: trim_start_slashes (join_slash ((n2 :: rest2).map String.data)) :=
        congrArg String.data heq
      have h4 := List.append_cancel_left h3
      simp only [List.cons.injEq, true_and] at h4
      simp only [List.map_cons] at h4 ⊢
      rwa [trim_start_join _ w1a w1b, trim_start_join _ w2a w2b] at h4
  have hdata := join_slash_inj wf1 wf2 hjoin
  have hinj : Function.Injective (List.map String.data) :=
    List.map_injective_iff.mpr fun a b hab => String.ext hab
  exact hinj hdata

/-- C6: over an error-free walk whose file names are nonempty, slash-free
and whose files' relative paths are distinct (as on a real filesystem), the
manifest has exactly one entry per regular file (symlinks and directories
skipped), entry sizes are the metadata sizes (so their sums agree), every
object key is `build_object_key prefix rel_path` — the slash-joined relative
path behind the slash-trimmed seam — and all keys are pairwise distinct. -/
theorem C6_manifest (walk : List WalkEntry) (pfx : String)
    (hwf : ∀ e ∈ walk, e.file_type = FileType.file →
      e.rel_path ≠ [] ∧ ∀ n ∈ e.rel_path, n ≠ "" ∧ '/' ∉ n.data)
    (hnd : ((file_entries walk).map WalkEntry.rel_path).Nodup) :
    (build_manifest walk pfx).1.length = (file_entries walk).length ∧
      ((build_manifest walk pfx).1.map ManifestEntry.size).sum =
        ((file_entries walk).map WalkEntry.size).sum ∧
      (build_manifest walk pfx).1 = (file_entries walk).map
        (fun e => ⟨e.rel_path, build_object_key pfx e.rel_path, e.size⟩) ∧
      ((build_manifest walk pfx).1.map ManifestEntry.key).Nodup := by
  have hfe : ∀ e ∈ file_entries walk, e.file_type = FileType.file := by
    intro e he
    have := List.of_mem_filter he
    simpa using this
  refine ⟨?_, ?_, build_manifest_entries walk pfx, ?_⟩
  · rw [build_manifest_entries]; simp
  · rw [build_manifest_entries, List.map_map]
    rfl
  · rw [build_manifest_entries]
    have hkeys : ((file_entries walk).map
        (fun e => ⟨e.rel_path, build_object_key pfx e.rel_path, e.size⟩ : WalkEntry → ManifestEntry)).map
          ManifestEntry.key =
        ((file_entries walk).map WalkEntry.rel_path).map (build_object_key pfx) := by
      simp [Function.comp]
    rw [hkeys]
    refine (List.nodup_map_iff_inj_on hnd).mpr ?_
    intro p1 hp1 p2 hp2 hk
    obtain ⟨e1, he1, rfl⟩ := List.mem_map.mp hp1
    obtain ⟨e2, he2, rfl⟩ := List.mem_map.mp hp2
    obtain ⟨hne1, hn1⟩ := hwf e1 (List.mem_of_mem_filter he1) (hfe e1 he1)
    obtain ⟨hne2, hn2⟩ := hwf e2 (List.mem_of_mem_filter he2) (hfe e2 he2)
    exact build_object_key_inj pfx hne1 hne2 hn1 hn2 hk

/-- Witness for C6 at the two-file walk `walk_two`. -/
theorem C6_witness :
    (∀ e ∈ walk_two, e.file_type = FileType.file →
      e.rel_path ≠ [] ∧ ∀ n ∈ e.rel_path, n ≠ "" ∧ '/' ∉ n.data) ∧
    ((file_entries walk_two).map WalkEntry.rel_path).Nodup ∧
    ((build_manifest walk_two "games/g/1").1.length = (file_entries walk_two).length ∧
      ((build_manifest walk_two "games/g/1").1.map ManifestEntry.size).sum =
        ((file_entries walk_two).map WalkEntry.size).sum ∧
      (build_manifest walk_two "games/g/1").1 = (file_entries walk_two).map
        (fun e => ⟨e.rel_path, build_object_key "games/g/1" e.rel_path, e.size⟩) ∧
      ((build_manifest walk_two "games/g/1").1.map ManifestEntry.key).Nodup) :=
  ⟨by decide, by decide, C6_manifest walk_two "games/g/1" (by decide) (by decide)⟩

/-! ## C3 — error-envelope unwrapping differs between the two call sites -/

/-- C3 counterexample: at the builds credential-fetch and upload-completed
sites, the body `{"error":"{\"message\":\"quota exceeded\"}"}` does *not*
surface `"quota exceeded"`: the nested parse there requires a `code` field
alongside `message` (`ApiError { code, message }`), and on its failure the
code falls back directly to `"API request failed: "` plus the raw body —
there is no raw-envelope-string fallback at those sites. -/
theorem C3_counterexample :
    builds_error_message "\x7b\"error\":\"\x7b\\\"message\\\":\\\"quota exceeded\\\"\x7d\"\x7d" ≠
        "quota exceeded" ∧
      builds_error_message "\x7b\"error\":\"\x7b\\\"message\\\":\\\"quota exceeded\\\"\x7d\"\x7d" =
        "API request failed: " ++ "\x7b\"error\":\"\x7b\\\"message\\\":\\\"quota exceeded\\\"\x7d\"\x7d" := by
  refine ⟨?_, ?_⟩ <;> decide

/-- C3 amended: the generic `ApiClient` implements the claimed cascade
(nested `message`, else the raw envelope string, else the prefixed raw body)
and surfaces `"quota exceeded"` / `"simple message"` on the two example
bodies; the builds call sites surface the nested message only when the
envelope string carries both `code` and `message`, and otherwise surface the
prefixed raw body directly. -/
theorem C3_amended (body : String) :
    (handle_response_error_message body =
      match deserialize_api_error_response body with
      | some inner => (deserialize_nested_error inner).getD inner
      | none => "API request failed: " ++ body) ∧
    (builds_error_message body =
      match deserialize_api_error_response body with
      | some inner =>
        match deserialize_api_error inner with
        | some cm => cm.2
        | none => "API request failed: " ++ body
      | none => "API request failed: " ++ body) ∧
    handle_response_error_message "\x7b\"error\":\"\x7b\\\"message\\\":\\\"quota exceeded\\\"\x7d\"\x7d" =
      "quota exceeded" ∧
    handle_response_error_message "\x7b\"error\":\"simple message\"\x7d" = "simple message" ∧
    builds_error_message "\x7b\"error\":\"simple message\"\x7d" =
      "API request failed: " ++ "\x7b\"error\":\"simple message\"\x7d" := by
  refine ⟨?_, rfl, by decide, by decide, by decide⟩
  cases h1 : deserialize_api_error_response body with
  | none => simp [handle_response_error_message, h1]
  | some inner =>
    cases h2 : deserialize_nested_error inner with
    | none => simp [handle_response_error_message, h1, h2]
    | some m => simp [handle_response_error_message, h1, h2]

/-! ## C9 — storing then reading the credential round-trips -/

/-- `hex_val` inverts `hex_digit` on one hex digit. -/
theorem hex_val_hex_digit {n : Nat} (h : n < 16) : hex_val (hex_digit n) = some n := by
  have : ∀ m, m < 16 → hex_val (hex_digit m) = some m := by decide
  exact this n h

/-- The string parser inverts the serializer's escaping: the escaped
characters followed by the closing quote decode back to the original
characters. -/
theorem parse_string_body_escape (k rest : List Char) :
    parse_string_body (k.flatMap escape_char ++ '"' :: rest) = some (k, rest) := by
  induction k with
  | nil =>
    unfold parse_string_body
    simp
  | cons c t ih =>
    have hflat : ((c :: t).flatMap escape_char ++ '"' :: rest) =
        escape_char c ++ (t.flatMap escape_char ++ '"' :: rest) := by
      rw [List.flatMap_cons, List.append_assoc]
    rw [hflat]
    by_cases h1 : c = '"'
    · subst h1
      rw [show escape_char '"' = ['\\', '"'] from rfl]
      simp only [List.cons_append, List.nil_append]
      unfold parse_string_body
      simp [unescape_char, ih]
    by_cases h2 : c = '\\'
    · subst h2
      rw [show escape_char '\\' = ['\\', '\\'] from rfl]
      simp only [List.cons_append, List.nil_append]
      unfold parse_string_body
      simp [unescape_char, ih]
    by_cases h3 : c = Char.ofNat 8
    · subst h3
      rw [show escape_char (Char.ofNat 8) = ['\\', 'b'] from rfl]
      simp only [List.cons_append, List.nil_append]
      unfold parse_string_body
      simp [unescape_char, ih]
    by_cases h4 : c = '\t'
    · subst h4
      rw [show escape_char '\t' = ['\\', 't'] from rfl]
      simp only [List.cons_append, List.nil_append]
      unfold parse_string_body
      simp [unescape_char, ih]
    by_cases h5 : c = '\n'
    · subst h5
      rw [show escape_char '\n' = ['\\', 'n'] from rfl]
      simp only [List.cons_append, List.nil_append]
      unfold parse_string_body
      simp [unescape_char, ih]
    by_cases h6 : c = Char.ofNat 12
    · subst h6
      rw [show escape_char (Char.ofNat 12) = ['\\', 'f'] from rfl]
      simp only [List.cons_append, List.nil_append]
      unfold parse_string_body
      simp [unescape_char, ih]
    by_cases h7 : c = '\r'
    · subst h7
      rw [show escape_char '\r' = ['\\', 'r'] from rfl]
      simp only [List.cons_append, List.nil_append]
      unfold parse_string_body
      simp [unescape_char, ih]
    by_cases h8 : c.toNat < 0x20
    · simp only [escape_char, if_neg h1, if_neg h2, if_neg h3, if_neg h4, if_neg h5,
        if_neg h6, if_neg h7, if_pos h8, List.cons_append, List.nil_append]
      have hdiv : c.toNat / 16 < 16 := by omega
      have hmod : c.toNat % 16 < 16 := Nat.mod_lt _ (by norm_num)
      have hval : ((0 * 16 + 0) * 16 + c.toNat / 16) * 16 + c.toNat % 16 = c.toNat := by
        omega
      unfold parse_string_body
      simp only [hex_val_hex_digit hdiv, hex_val_hex_digit hmod,
        show hex_val '0' = some 0 from by decide, ih, hval]
      simp [ih]
    · simp only [escape_char, if_neg h1, if_neg h2, if_neg h3, if_neg h4, if_neg h5,
        if_neg h6, if_neg h7, if_neg h8, List.cons_append, List.nil_append]
      unfold parse_string_body
      simp [h1, h2, h8, ih]

/-- A serialized string value parses back to the original string. -/
theorem parse_value_str (k : String) (n : Nat) (rest : List Char) :
    parse_value (n + 1) ('"' :: (k.data.flatMap escape_char ++ '"' :: rest)) =
      some (.str k, rest) := by
  unfold parse_value
  simp [skip_ws, is_ws, parse_string_body_escape]

/-- The serialized credentials object parses back to the one-member object,
for any fuel of the shape `n + 3`. -/
theorem parse_value_creds (k : String) (n : Nat) :
    parse_value (n + 1 + 1 + 1) (store_api_key_content k).data =
      some (.obj [("api_key", .str k)], []) := by
  have hkey := parse_string_body_escape ['a', 'p', 'i', '_', 'k', 'e', 'y']
    (':' :: '"' :: (k.data.flatMap escape_char ++ ['"', '}']))
  rw [show (['a', 'p', 'i', '_', 'k', 'e', 'y'] : List Char).flatMap escape_char =
    ['a', 'p', 'i', '_', 'k', 'e', 'y'] from rfl] at hkey
  simp only [List.cons_append, List.nil_append] at hkey
  show parse_value (n + 1 + 1 + 1)
      ('{' :: '"' :: ((['a', 'p', 'i', '_', 'k', 'e', 'y'] : List Char) ++
        '"' :: ':' :: '"' :: (k.data.flatMap escape_char ++ ['"', '}']))) = _
  unfold parse_value parse_members
  simp [skip_ws, is_ws, hkey, parse_value_str]

/-- `serde_json::from_str` inverts `serde_json::to_string` on the
credentials record. -/
theorem parse_json_creds (k : String) :
    parse_json (store_api_key_content k) = some (.obj [("api_key", .str k)]) := by
  unfold parse_json
  obtain ⟨m, hm⟩ : ∃ m,
      2 * (store_api_key_content k).data.length + 2 = m + 1 + 1 + 1 := by
    have h1 : 0 < (store_api_key_content k).data.length := by
      simp [store_api_key_content]
    exact ⟨2 * (store_api_key_content k).data.length - 1, by omega⟩
  rw [hm, parse_value_creds]
  simp [skip_ws]

/-- C9: for every token string, a successful `store_api_key` followed by
`get_api_key` returns exactly the stored token — the credential round-trips
through the JSON credentials file, whatever characters (quotes, backslashes,
control characters) the token contains. -/
theorem C9_store_get_roundtrip (k : String) :
    get_api_key (some (store_api_key_content k)) = some k := by
  show deserialize_credentials (store_api_key_content k) = some k
  unfold deserialize_credentials
  rw [parse_json_creds]
  unfold str_field
  simp

end Wvdsh
